import Mathlib

/- Shallow embedding of the core of a college-basketball score-prediction
pipeline (team-name canonicalization, the efficiency score model, and the
multi-source aggregator), together with theorems checking its
natural-language specification.

Conventions used throughout:
* a pandas DataFrame becomes a list of structures, and a row lookup
  `df[df['Team'] == team]` followed by `.iloc[0]` becomes `List.find?`;
* Python floats become exact rationals;
* fallible code returns `Option` instead of raising;
* Python `round(x, 1)` and pandas `Series.round()` round half to even,
  modelled by `roundHalfEven` below;
* a pandas left merge is modelled as a first-match lookup on the join key
  (the per-source prediction files hold one row per matchup). -/

namespace CBB

/- ---------------------------------------------------------------------
Rounding helpers shared by torvik_game_output.py (round(x, 1)) and
combine_predictions.py (Series.round()).
--------------------------------------------------------------------- -/

/-- Round a rational to the nearest integer, ties to the even integer:
the rounding used by Python's round() and pandas' Series.round(). -/
def roundHalfEven (q : ℚ) : ℤ :=
  let f := q.floor
  if q - (f : ℚ) < 1/2 then f
  else if (1 : ℚ)/2 < q - (f : ℚ) then f + 1
  else if f % 2 = 0 then f else f + 1

/-- Python's round(x, 1): round to the nearest tenth, ties to even. -/
def round1 (q : ℚ) : ℚ := (roundHalfEven (10 * q) : ℚ) / 10

/- ---------------------------------------------------------------------
torvik_game_output.py
--------------------------------------------------------------------- -/

/-- One row of the torvik_data.csv ratings table.  The HCA column may be
absent from the table, hence the Option (the code checks
`'HCA' in home_data.index` and falls back to 3.0). -/
structure TeamRow where
  team : String
  adjO : ℚ
  adjD : ℚ
  adjT : ℚ
  hca : Option ℚ
  deriving DecidableEq, Repr

/-- Constant `D1_AVERAGES['tempo']` of torvik_game_output.py. -/
def d1AvgTempo : ℚ := 67.6

/-- Constant `D1_AVERAGES['def_efficiency']` of torvik_game_output.py. -/
def d1AvgDefEff : ℚ := 110.3

/-- `get_team_data` of torvik_game_output.py: the first row whose Team
field equals the given name, or None. -/
def get_team_data (df : List TeamRow) (team : String) : Option TeamRow :=
  df.find? (fun r => r.team == team)

/-- `calculate_tempo` of torvik_game_output.py. -/
def calculate_tempo (torvik_data : List TeamRow) (home_team away_team : String) :
    Option ℚ := do
  let home_data ← get_team_data torvik_data home_team
  let away_data ← get_team_data torvik_data away_team
  pure ((home_data.adjT * away_data.adjT) / d1AvgTempo)

/-- `calculate_home_score` of torvik_game_output.py. -/
def calculate_home_score (torvik_data : List TeamRow)
    (home_team away_team : String) (neutral_site : Bool) : Option ℚ := do
  let home_data ← get_team_data torvik_data home_team
  let away_data ← get_team_data torvik_data away_team
  let tempo ← calculate_tempo torvik_data home_team away_team
  let score := (home_data.adjO * away_data.adjD * tempo) / (d1AvgDefEff * 100)
  if neutral_site then
    pure score
  else
    pure (score + home_data.hca.getD 3)

/-- `calculate_away_score` of torvik_game_output.py (no HCA term). -/
def calculate_away_score (torvik_data : List TeamRow)
    (away_team home_team : String) : Option ℚ := do
  let home_data ← get_team_data torvik_data home_team
  let away_data ← get_team_data torvik_data away_team
  let tempo ← calculate_tempo torvik_data home_team away_team
  pure ((away_data.adjO * home_data.adjD * tempo) / (d1AvgDefEff * 100))

/-- One row of daily_matchups.csv (the fields predict_games reads). -/
structure Matchup where
  home_team : String
  away_team : String
  neutral_site : Bool
  deriving DecidableEq, Repr

/-- One row of torvik_predictions.csv: scores as emitted by
predict_games, i.e. already passed through round(x, 1). -/
structure Prediction where
  home_team : String
  away_team : String
  home_score : ℚ
  away_score : ℚ
  deriving DecidableEq, Repr

/-- One entry of the skipped list of predict_games (the error message of
the except branch is not modelled). -/
structure SkippedGame where
  home : String
  away : String
  deriving DecidableEq, Repr

/-- The per-matchup loop of `predict_games` of torvik_game_output.py:
skip a matchup (recording it) when either team has no row, otherwise
emit a prediction with both scores rounded to one decimal.  The final
match's fallback arm mirrors the except branch of the loop body. -/
def predict_games (torvik_data : List TeamRow) :
    List Matchup → List Prediction × List SkippedGame
  | [] => ([], [])
  | game :: rest =>
    match get_team_data torvik_data game.home_team,
          get_team_data torvik_data game.away_team with
    | none, _ =>
      let (ps, sk) := predict_games torvik_data rest
      (ps, ⟨game.home_team, game.away_team⟩ :: sk)
    | some _, none =>
      let (ps, sk) := predict_games torvik_data rest
      (ps, ⟨game.home_team, game.away_team⟩ :: sk)
    | some _, some _ =>
      match calculate_home_score torvik_data game.home_team game.away_team
              game.neutral_site,
            calculate_away_score torvik_data game.away_team game.home_team with
      | some hs, some asc =>
        let (ps, sk) := predict_games torvik_data rest
        (⟨game.home_team, game.away_team, round1 hs, round1 asc⟩ :: ps, sk)
      | _, _ =>
        let (ps, sk) := predict_games torvik_data rest
        (ps, ⟨game.home_team, game.away_team⟩ :: sk)

/- ---------------------------------------------------------------------
combine_predictions.py
--------------------------------------------------------------------- -/

/-- The row of another prediction file whose (Home Team, Away Team) key
matches that of the given base row: the left-merge lookup of
combine_predictions.py (each prediction file holds at most one row per
matchup, so the merge is a first-match lookup). -/
def matchingRow (rows : List Prediction) (k : Prediction) : Option Prediction :=
  rows.find? (fun r => r.home_team == k.home_team && r.away_team == k.away_team)

/-- The per-source scores present for one side of one matchup: the
Kenpom value is always there (the combined frame is built from the
Kenpom file), the other two only when the left merge found a row.  This
is the row of non-NaN cells that pandas mean(axis=1, skipna=True)
averages over. -/
def presentScores (kenpomScore : ℚ) (torvikScore haslamScore : Option ℚ) :
    List ℚ :=
  [some kenpomScore, torvikScore, haslamScore].reduceOption

/-- Arithmetic mean, as pandas mean(axis=1, skipna=True) computes it
over the present cells. -/
def listMean (l : List ℚ) : ℚ := l.sum / l.length

/-- `combine_predictions` of combine_predictions.py: start from the
Kenpom rows, left-merge Torvik and Haslametrics on the team-name pair,
average each side over the present sources, and round to the nearest
integer (pandas Series.round, half to even). -/
def combine_predictions (kenpom torvik haslam : List Prediction) :
    List Prediction :=
  kenpom.map (fun k =>
    let t := matchingRow torvik k
    let h := matchingRow haslam k
    let homes := presentScores k.home_score (t.map Prediction.home_score)
      (h.map Prediction.home_score)
    let aways := presentScores k.away_score (t.map Prediction.away_score)
      (h.map Prediction.away_score)
    { home_team := k.home_team
      away_team := k.away_team
      home_score := (roundHalfEven (listMean homes) : ℚ)
      away_score := (roundHalfEven (listMean aways) : ℚ) })

/- ---------------------------------------------------------------------
game_card_generator.py
--------------------------------------------------------------------- -/

/-- The colors given to the two score texts of one game card. -/
structure CardColors where
  home_color : String
  away_color : String
  deriving DecidableEq, Repr

/-- The winner-styling logic of `create_game_card` of
game_card_generator.py: home_winning = home_score > away_score; the home
score is red (the winner color) if home_winning else black, the away
score is red if not home_winning else black. -/
def create_game_card_colors (home_score away_score : ℚ) : CardColors :=
  let home_winning : Bool := decide (home_score > away_score)
  { home_color := if home_winning then "#d32f2f" else "#222"
    away_color := if !home_winning then "#d32f2f" else "#222" }

/- ---------------------------------------------------------------------
Team-name canonicalization: team_mapping.py (modelled), plus
normalize_team_names of fetch_daily_games.py and haslametric_scrape.py.
--------------------------------------------------------------------- -/

/-- Modelled from the spec: `get_canonical_name` of team_mapping.py,
which is not among the source files (only its callers are).  Per the
spec, the lookup is an exact match against a maintained table of raw
spelling to canonical identity, returning the canonical identity if
found and None otherwise, with no fuzzy matching.  The table is passed
explicitly as a list of (raw spelling, canonical identity) pairs. -/
def get_canonical_name (table : List (String × String)) (raw : String) :
    Option String :=
  (table.find? (fun p => p.1 == raw)).map (fun p => p.2)

/-- One canonicalization step shared by both normalize_team_names
loops: map the name through the table; on a hit use the canonical name,
otherwise keep the name itself and record it in the unmapped list unless
it is already there.  (The Python call sites test the lookup result for
truthiness; canonical identities are nonempty strings, so this is the
some/none split.) -/
def resolve_name (table : List (String × String)) (name : String)
    (unmapped : List String) : String × List String :=
  match get_canonical_name table name with
  | some s => (s, unmapped)
  | none => (name, if name ∈ unmapped then unmapped else unmapped ++ [name])

/-- The two team-name columns of one daily_matchups.csv row (the other
columns are untouched by normalization). -/
structure GameRow where
  home_team : String
  away_team : String
  deriving DecidableEq, Repr

namespace FetchDaily

/-- The row loop of `normalize_team_names` of fetch_daily_games.py,
carrying the growing unmapped-teams list; each row's home name is
processed before its away name, as in the source. -/
def normalize_aux (table : List (String × String)) :
    List GameRow → List String → List GameRow × List String
  | [], u => ([], u)
  | row :: rest, u =>
    let ph := resolve_name table row.home_team u
    let pa := resolve_name table row.away_team ph.2
    let pr := normalize_aux table rest pa.2
    (⟨ph.1, pa.1⟩ :: pr.1, pr.2)

/-- `normalize_team_names` of fetch_daily_games.py: the normalized rows
together with the unmapped-teams report (the source prints
sorted(set(unmapped_teams)); the list built here already holds each name
at most once, so it is that report up to ordering). -/
def normalize_team_names (table : List (String × String))
    (df : List GameRow) : List GameRow × List String :=
  normalize_aux table df []

end FetchDaily

/-- Python list-char helper: drop the longest suffix satisfying p. -/
def dropRightWhileList (p : Char → Bool) (cs : List Char) : List Char :=
  (cs.reverse.dropWhile p).reverse

/-- Python str.strip(): remove whitespace from both ends. -/
def pyStrip (cs : List Char) : List Char :=
  dropRightWhileList Char.isWhitespace (cs.dropWhile Char.isWhitespace)

/-- The cleaning applied to each scraped name by normalize_team_names of
haslametric_scrape.py: re.sub(matching optional whitespace then digits
at the end of the string, removed) followed by str.strip().  The regex
matches exactly when the string ends in a digit, and then removes the
maximal trailing digit run together with the whitespace run just before
it. -/
def stripRankChars (cs : List Char) : List Char :=
  let t := match cs.getLast? with
    | some c =>
      if c.isDigit then
        dropRightWhileList Char.isWhitespace (dropRightWhileList Char.isDigit cs)
      else cs
    | none => cs
  pyStrip t

/-- String version of stripRankChars. -/
def stripRank (s : String) : String := String.mk (stripRankChars s.data)

namespace Haslam

/-- The row loop of `normalize_team_names` of haslametric_scrape.py:
clean both names of trailing rank tokens, then canonicalize the away
name before the home name, as in the source; the unmapped list records
the cleaned names. -/
def normalize_aux (table : List (String × String)) :
    List Prediction → List String → List Prediction × List String
  | [], u => ([], u)
  | row :: rest, u =>
    let away_clean := stripRank row.away_team
    let home_clean := stripRank row.home_team
    let pa := resolve_name table away_clean u
    let ph := resolve_name table home_clean pa.2
    let pr := normalize_aux table rest ph.2
    ({ row with home_team := ph.1, away_team := pa.1 } :: pr.1, pr.2)

/-- `normalize_team_names` of haslametric_scrape.py. -/
def normalize_team_names (table : List (String × String))
    (df : List Prediction) : List Prediction × List String :=
  normalize_aux table df []

end Haslam

/- ---------------------------------------------------------------------
Derived notions used to state theorems about the embedding.
--------------------------------------------------------------------- -/

/-- Both teams of a matchup have a row in the ratings table: the guard
of the per-matchup loop of predict_games. -/
def bothFound (df : List TeamRow) (g : Matchup) : Bool :=
  (get_team_data df g.home_team).isSome && (get_team_data df g.away_team).isSome

/-- The prediction predict_games emits for a matchup whose teams are
both present (the getD defaults are never used in that case). -/
def predictionOf (df : List TeamRow) (g : Matchup) : Prediction :=
  { home_team := g.home_team
    away_team := g.away_team
    home_score :=
      round1 ((calculate_home_score df g.home_team g.away_team g.neutral_site).getD 0)
    away_score :=
      round1 ((calculate_away_score df g.away_team g.home_team).getD 0) }

/-- The skipped-list entry predict_games records for a matchup. -/
def skippedOf (g : Matchup) : SkippedGame := ⟨g.home_team, g.away_team⟩

/-- The canonical key a normalizer actually writes for a looked-up name:
the canonical identity on a hit, the looked-up name itself otherwise. -/
def canonicalKey (table : List (String × String)) (name : String) : String :=
  (get_canonical_name table name).getD name

/-- The consensus row combine_predictions builds from one Kenpom row
and the two merge lookups. -/
def consensusOf (torvik haslam : List Prediction) (k : Prediction) : Prediction :=
  let t := matchingRow torvik k
  let h := matchingRow haslam k
  let homes := presentScores k.home_score (t.map Prediction.home_score)
    (h.map Prediction.home_score)
  let aways := presentScores k.away_score (t.map Prediction.away_score)
    (h.map Prediction.away_score)
  { home_team := k.home_team
    away_team := k.away_team
    home_score := (roundHalfEven (listMean homes) : ℚ)
    away_score := (roundHalfEven (listMean aways) : ℚ) }

/-- A name is referenced by some row of a daily-matchups frame. -/
def referencedIn (df : List GameRow) (name : String) : Prop :=
  ∃ r ∈ df, r.home_team = name ∨ r.away_team = name

/-- A cleaned name is referenced by some row of a Haslametrics frame,
after rank stripping. -/
def referencedCleanIn (df : List Prediction) (name : String) : Prop :=
  ∃ r ∈ df, stripRank r.home_team = name ∨ stripRank r.away_team = name

end CBB

/- ---------------------------------------------------------------------
Theorems.
--------------------------------------------------------------------- -/

namespace CBB

/-- When both lookups hit, calculate_tempo returns the product of the
two adjusted tempi over the league average. -/
theorem calculate_tempo_some {df : List TeamRow} {h a : String}
    {rh ra : TeamRow} (hh : get_team_data df h = some rh)
    (ha : get_team_data df a = some ra) :
    calculate_tempo df h a = some ((rh.adjT * ra.adjT) / d1AvgTempo) := by
  simp [calculate_tempo, hh, ha]

/-- When both lookups hit, calculate_home_score returns the efficiency
formula, plus the home team's HCA (default 3) unless the site is
neutral. -/
theorem calculate_home_score_some {df : List TeamRow} {h a : String}
    {rh ra : TeamRow} (hh : get_team_data df h = some rh)
    (ha : get_team_data df a = some ra) (n : Bool) :
    calculate_home_score df h a n =
      some (if n then
          (rh.adjO * ra.adjD * ((rh.adjT * ra.adjT) / d1AvgTempo)) / (d1AvgDefEff * 100)
        else
          (rh.adjO * ra.adjD * ((rh.adjT * ra.adjT) / d1AvgTempo)) / (d1AvgDefEff * 100)
            + rh.hca.getD 3) := by
  cases n <;> simp [calculate_home_score, calculate_tempo, hh, ha]

/-- When both lookups hit, calculate_away_score returns the mirrored
efficiency formula with no HCA term. -/
theorem calculate_away_score_some {df : List TeamRow} {h a : String}
    {rh ra : TeamRow} (hh : get_team_data df h = some rh)
    (ha : get_team_data df a = some ra) :
    calculate_away_score df a h =
      some ((ra.adjO * rh.adjD * ((rh.adjT * ra.adjT) / d1AvgTempo)) / (d1AvgDefEff * 100)) := by
  simp [calculate_away_score, calculate_tempo, hh, ha]

/-- C10: for every ratings table and team name, get_team_data returns
None if and only if no row of the table has its Team field equal to the
given name; otherwise it returns the first row whose Team field equals
the name.  (The embedding is a total function, so no exception can be
raised.) -/
theorem get_team_data_first_match_spec (df : List TeamRow) (team : String) :
    (get_team_data df team = none ↔ ∀ r ∈ df, r.team ≠ team)
    ∧ ∀ r, get_team_data df team = some r →
        r.team = team ∧ ∃ l1 l2, df = l1 ++ r :: l2 ∧ ∀ x ∈ l1, x.team ≠ team := by
  constructor
  · simp [get_team_data, List.find?_eq_none]
  · induction df with
    | nil => intro r hr; simp [get_team_data] at hr
    | cons x xs ih =>
      intro r hr
      by_cases hx : x.team = team
      · have hfind : get_team_data (x :: xs) team = some x := by
          simp [get_team_data, List.find?_cons_of_pos, hx]
        rw [hfind] at hr
        cases hr
        exact ⟨hx, [], xs, rfl, by simp⟩
      · have hstep : get_team_data (x :: xs) team = get_team_data xs team := by
          simp [get_team_data, List.find?_cons_of_neg, hx]
        obtain ⟨ht, l1, l2, hsplit, hl1⟩ := ih r (hstep ▸ hr)
        refine ⟨ht, x :: l1, l2, by rw [hsplit]; rfl, ?_⟩
        intro y hy
        rcases List.mem_cons.mp hy with hy | hy
        · exact hy ▸ hx
        · exact hl1 y hy

/-- Closed instance of the C10 theorem on a concrete two-row table. -/
theorem get_team_data_first_match_spec_witness :
    (⟨"B", 4, 5, 6, some 2⟩ : TeamRow).team = "B"
    ∧ ∃ l1 l2, ([⟨"A", 1, 2, 3, none⟩, ⟨"B", 4, 5, 6, some 2⟩] : List TeamRow)
        = l1 ++ ⟨"B", 4, 5, 6, some 2⟩ :: l2 ∧ ∀ x ∈ l1, x.team ≠ "B" :=
  (get_team_data_first_match_spec [⟨"A", 1, 2, 3, none⟩, ⟨"B", 4, 5, 6, some 2⟩]
    "B").2 ⟨"B", 4, 5, 6, some 2⟩ (by decide)

/-- C1: for a matchup whose teams are both in the ratings table, the
model returns tempo = (home.AdjT * away.AdjT) / 67.6, home_score =
(home.AdjO * away.AdjD * tempo) / (110.3 * 100) plus the home team's
HCA exactly when the site is not neutral, and away_score =
(away.AdjO * home.AdjD * tempo) / (110.3 * 100) with no HCA term. -/
theorem torvik_score_formulas (df : List TeamRow) (h a : String)
    (rh ra : TeamRow) (n : Bool)
    (hh : get_team_data df h = some rh) (ha : get_team_data df a = some ra) :
    calculate_tempo df h a = some ((rh.adjT * ra.adjT) / 67.6)
    ∧ calculate_home_score df h a n =
        some ((rh.adjO * ra.adjD * ((rh.adjT * ra.adjT) / 67.6)) / (110.3 * 100)
          + (if n = false then rh.hca.getD 3 else 0))
    ∧ calculate_away_score df a h =
        some ((ra.adjO * rh.adjD * ((rh.adjT * ra.adjT) / 67.6)) / (110.3 * 100)) := by
  have ht : d1AvgTempo = (67.6 : ℚ) := rfl
  have hd : d1AvgDefEff = (110.3 : ℚ) := rfl
  refine ⟨ht ▸ calculate_tempo_some hh ha, ?_, by
    have := calculate_away_score_some hh ha
    rw [ht, hd] at this
    exact this⟩
  have := calculate_home_score_some hh ha n
  rw [ht, hd] at this
  rw [this]
  cases n <;> simp

/-- Closed instance of the C1 theorem on a concrete two-row table with
a non-neutral site. -/
theorem torvik_score_formulas_witness :
    get_team_data [⟨"H", 1, 2, 3, some 2⟩, ⟨"A", 4, 5, 6, none⟩] "H"
        = some ⟨"H", 1, 2, 3, some 2⟩
    ∧ calculate_tempo [⟨"H", 1, 2, 3, some 2⟩, ⟨"A", 4, 5, 6, none⟩] "H" "A"
        = some (((⟨"H", 1, 2, 3, some 2⟩ : TeamRow).adjT
            * (⟨"A", 4, 5, 6, none⟩ : TeamRow).adjT) / 67.6) :=
  ⟨by decide, (torvik_score_formulas [⟨"H", 1, 2, 3, some 2⟩, ⟨"A", 4, 5, 6, none⟩]
    "H" "A" ⟨"H", 1, 2, 3, some 2⟩ ⟨"A", 4, 5, 6, none⟩ false
    (by decide) (by decide)).1⟩

/-- C7: for two teams whose ratings agree in every field, a non-neutral
projection puts the home side ahead by exactly the home team's HCA
value (its HCA rating, or the default 3 when the column is absent). -/
theorem identical_ratings_margin_is_hca (df : List TeamRow) (h a : String)
    (rh ra : TeamRow)
    (hh : get_team_data df h = some rh) (ha : get_team_data df a = some ra)
    (hO : rh.adjO = ra.adjO) (hD : rh.adjD = ra.adjD) (hT : rh.adjT = ra.adjT)
    (hH : rh.hca = ra.hca) :
    ∃ hs aws, calculate_home_score df h a false = some hs
      ∧ calculate_away_score df a h = some aws
      ∧ hs - aws = rh.hca.getD 3 := by
  refine ⟨_, _, calculate_home_score_some hh ha false,
    calculate_away_score_some hh ha, ?_⟩
  simp only [Bool.false_eq_true, if_false]
  rw [hO, hD]
  ring

/-- Closed instance of the C7 theorem on a table whose two rows carry
identical ratings. -/
theorem identical_ratings_margin_is_hca_witness :
    get_team_data [⟨"H", 1, 2, 3, some 5⟩, ⟨"A", 1, 2, 3, some 5⟩] "A"
        = some ⟨"A", 1, 2, 3, some 5⟩
    ∧ ∃ hs aws,
        calculate_home_score [⟨"H", 1, 2, 3, some 5⟩, ⟨"A", 1, 2, 3, some 5⟩]
          "H" "A" false = some hs
        ∧ calculate_away_score [⟨"H", 1, 2, 3, some 5⟩, ⟨"A", 1, 2, 3, some 5⟩]
          "A" "H" = some aws
        ∧ hs - aws = (⟨"H", 1, 2, 3, some 5⟩ : TeamRow).hca.getD 3 :=
  ⟨by decide, identical_ratings_margin_is_hca
    [⟨"H", 1, 2, 3, some 5⟩, ⟨"A", 1, 2, 3, some 5⟩] "H" "A"
    ⟨"H", 1, 2, 3, some 5⟩ ⟨"A", 1, 2, 3, some 5⟩
    (by decide) (by decide) rfl rfl rfl rfl⟩

/-- The prediction loop splits the matchups by the presence of both
teams' rows: found matchups produce predictions, the rest are recorded
as skipped, each side in input order. -/
theorem predict_games_eq (df : List TeamRow) (gs : List Matchup) :
    predict_games df gs =
      ((gs.filter (bothFound df)).map (predictionOf df),
       (gs.filter (fun g => !bothFound df g)).map skippedOf) := by
  induction gs with
  | nil => simp [predict_games]
  | cons g rest ih =>
    rcases hh : get_team_data df g.home_team with _ | rh
    · have hb : bothFound df g = false := by simp [bothFound, hh]
      simp [predict_games, hh, ih, hb, skippedOf, List.filter_cons]
    · rcases ha : get_team_data df g.away_team with _ | ra
      · have hb : bothFound df g = false := by simp [bothFound, hh, ha]
        simp [predict_games, hh, ha, ih, hb, skippedOf, List.filter_cons]
      · have hb : bothFound df g = true := by simp [bothFound, hh, ha]
        have hcs := calculate_home_score_some hh ha g.neutral_site
        have hcaw := calculate_away_score_some hh ha
        simp [predict_games, hh, ha, hcs, hcaw, ih, hb, predictionOf,
          List.filter_cons]

/-- C6: a matchup with either team absent from the ratings table
contributes no prediction, lands in the skipped list, and the
remaining matchups are processed exactly as if it were not there (the
embedding is total, so nothing is raised). -/
theorem missing_rating_skips_and_continues (df : List TeamRow)
    (gs1 gs2 : List Matchup) (g : Matchup)
    (hmiss : get_team_data df g.home_team = none
      ∨ get_team_data df g.away_team = none) :
    (predict_games df (gs1 ++ g :: gs2)).1 = (predict_games df (gs1 ++ gs2)).1
    ∧ skippedOf g ∈ (predict_games df (gs1 ++ g :: gs2)).2 := by
  have hb : bothFound df g = false := by
    rcases hmiss with h | h <;> simp [bothFound, h]
  constructor
  · rw [predict_games_eq, predict_games_eq]
    simp [List.filter_append, List.filter_cons, hb]
  · rw [predict_games_eq]
    apply List.mem_map_of_mem
    rw [List.filter_append]
    apply List.mem_append_right
    simp [List.filter_cons, hb]

/-- Closed instance of the C6 theorem: an unknown home team is skipped
while the following matchup is still processed. -/
theorem missing_rating_skips_and_continues_witness :
    get_team_data [⟨"C", 1, 2, 3, none⟩, ⟨"D", 1, 2, 3, none⟩] "H" = none
    ∧ (predict_games [⟨"C", 1, 2, 3, none⟩, ⟨"D", 1, 2, 3, none⟩]
        [⟨"H", "A", false⟩, ⟨"C", "D", false⟩]).1
      = (predict_games [⟨"C", 1, 2, 3, none⟩, ⟨"D", 1, 2, 3, none⟩]
        [⟨"C", "D", false⟩]).1
    ∧ skippedOf ⟨"H", "A", false⟩
        ∈ (predict_games [⟨"C", 1, 2, 3, none⟩, ⟨"D", 1, 2, 3, none⟩]
            [⟨"H", "A", false⟩, ⟨"C", "D", false⟩]).2 :=
  ⟨by decide, missing_rating_skips_and_continues
    [⟨"C", 1, 2, 3, none⟩, ⟨"D", 1, 2, 3, none⟩] [] [⟨"C", "D", false⟩]
    ⟨"H", "A", false⟩ (Or.inl (by decide))⟩

/-- The claim that per-source projections are emitted unrounded fails:
on this table the raw home projection is 13309/1103 (about 12.0662)
but the emitted prediction carries 12.1, its rounding to one decimal
place, and the two differ. -/
theorem torvik_rounds_to_tenths_cex :
    calculate_home_score
        [⟨"H", 100, 100, 26, some 3⟩, ⟨"A", 100, 100, 26, some 3⟩]
        "H" "A" false = some (13309/1103)
    ∧ (predict_games
        [⟨"H", 100, 100, 26, some 3⟩, ⟨"A", 100, 100, 26, some 3⟩]
        [⟨"H", "A", false⟩]).1
      = [⟨"H", "A", 121/10, 91/10⟩]
    ∧ (121/10 : ℚ) ≠ 13309/1103 := by
  have hh : get_team_data
      [⟨"H", 100, 100, 26, some 3⟩, ⟨"A", 100, 100, 26, some 3⟩] "H"
      = some ⟨"H", 100, 100, 26, some 3⟩ := by decide
  have ha : get_team_data
      [⟨"H", 100, 100, 26, some 3⟩, ⟨"A", 100, 100, 26, some 3⟩] "A"
      = some ⟨"A", 100, 100, 26, some 3⟩ := by decide
  refine ⟨?_, ?_, by norm_num⟩
  · rw [calculate_home_score_some hh ha]
    norm_num [d1AvgTempo, d1AvgDefEff]
  · rw [predict_games_eq]
    have hb : bothFound
        [⟨"H", 100, 100, 26, some 3⟩, ⟨"A", 100, 100, 26, some 3⟩]
        ⟨"H", "A", false⟩ = true := by decide
    simp only [List.filter_cons, hb, if_true, List.filter_nil, List.map_cons,
      List.map_nil]
    have hp : predictionOf
        [⟨"H", 100, 100, 26, some 3⟩, ⟨"A", 100, 100, 26, some 3⟩]
        ⟨"H", "A", false⟩ = ⟨"H", "A", 121/10, 91/10⟩ := by
      simp only [predictionOf]
      rw [calculate_home_score_some hh ha, calculate_away_score_some hh ha]
      simp only [Option.getD_some]
      norm_num [d1AvgTempo, d1AvgDefEff, round1, roundHalfEven, Rat.floor_def']
    rw [hp]

/-- C4 as amended: every prediction the Torvik model emits carries the
raw projections rounded to one decimal place (not to a whole number),
and rounding to a whole number happens in the aggregator, whose output
scores are integers. -/
theorem per_source_tenths_aggregator_integer :
    (∀ (df : List TeamRow) (gs : List Matchup) (p : Prediction),
      p ∈ (predict_games df gs).1 →
      ∃ g ∈ gs, p.home_team = g.home_team ∧ p.away_team = g.away_team
        ∧ ∃ hs aws,
          calculate_home_score df g.home_team g.away_team g.neutral_site = some hs
          ∧ calculate_away_score df g.away_team g.home_team = some aws
          ∧ p.home_score = round1 hs ∧ p.away_score = round1 aws)
    ∧ ∀ (k t h : List Prediction) (x : Prediction),
        x ∈ combine_predictions k t h →
        (∃ z : ℤ, x.home_score = (z : ℚ)) ∧ ∃ z : ℤ, x.away_score = (z : ℚ) := by
  constructor
  · intro df gs p hp
    rw [predict_games_eq] at hp
    obtain ⟨g, hgf, rfl⟩ := List.mem_map.mp hp
    have hg := List.mem_filter.mp hgf
    obtain ⟨rh, hh⟩ := Option.isSome_iff_exists.mp (by
      have := hg.2
      simp [bothFound] at this
      exact this.1)
    obtain ⟨ra, ha⟩ := Option.isSome_iff_exists.mp (by
      have := hg.2
      simp [bothFound] at this
      exact this.2)
    refine ⟨g, hg.1, rfl, rfl, _, _,
      calculate_home_score_some hh ha g.neutral_site,
      calculate_away_score_some hh ha, ?_, ?_⟩
    · simp [predictionOf, calculate_home_score_some hh ha g.neutral_site]
    · simp [predictionOf, calculate_away_score_some hh ha]
  · intro k t h x hx
    obtain ⟨k0, _, rfl⟩ := List.mem_map.mp hx
    exact ⟨⟨_, rfl⟩, ⟨_, rfl⟩⟩

/-- Closed instance of the C4 amended theorem: a prediction the model
emitted is the one-decimal rounding of a raw projection. -/
theorem per_source_tenths_aggregator_integer_witness :
    (⟨"H", "A", 3, 0⟩ : Prediction)
      ∈ (predict_games [⟨"H", 0, 0, 0, some 3⟩, ⟨"A", 0, 0, 0, some 3⟩]
          [⟨"H", "A", false⟩]).1
    ∧ ∃ g ∈ ([⟨"H", "A", false⟩] : List Matchup),
        (⟨"H", "A", 3, 0⟩ : Prediction).home_team = g.home_team
        ∧ (⟨"H", "A", 3, 0⟩ : Prediction).away_team = g.away_team
        ∧ ∃ hs aws,
          calculate_home_score [⟨"H", 0, 0, 0, some 3⟩, ⟨"A", 0, 0, 0, some 3⟩]
            g.home_team g.away_team g.neutral_site = some hs
          ∧ calculate_away_score [⟨"H", 0, 0, 0, some 3⟩, ⟨"A", 0, 0, 0, some 3⟩]
            g.away_team g.home_team = some aws
          ∧ (⟨"H", "A", 3, 0⟩ : Prediction).home_score = round1 hs
          ∧ (⟨"H", "A", 3, 0⟩ : Prediction).away_score = round1 aws := by
  have hh : get_team_data [⟨"H", 0, 0, 0, some 3⟩, ⟨"A", 0, 0, 0, some 3⟩] "H"
      = some ⟨"H", 0, 0, 0, some 3⟩ := by decide
  have ha : get_team_data [⟨"H", 0, 0, 0, some 3⟩, ⟨"A", 0, 0, 0, some 3⟩] "A"
      = some ⟨"A", 0, 0, 0, some 3⟩ := by decide
  have hm : (⟨"H", "A", 3, 0⟩ : Prediction)
      ∈ (predict_games [⟨"H", 0, 0, 0, some 3⟩, ⟨"A", 0, 0, 0, some 3⟩]
          [⟨"H", "A", false⟩]).1 := by
    rw [predict_games_eq]
    have hb : bothFound [⟨"H", 0, 0, 0, some 3⟩, ⟨"A", 0, 0, 0, some 3⟩]
        ⟨"H", "A", false⟩ = true := by decide
    simp only [List.filter_cons, hb, if_true, List.filter_nil, List.map_cons,
      List.map_nil]
    have hp : predictionOf [⟨"H", 0, 0, 0, some 3⟩, ⟨"A", 0, 0, 0, some 3⟩]
        ⟨"H", "A", false⟩ = ⟨"H", "A", 3, 0⟩ := by
      rw [predictionOf]
      rw [calculate_home_score_some hh ha, calculate_away_score_some hh ha]
      simp only [Option.getD_some]
      norm_num [d1AvgTempo, d1AvgDefEff, round1, roundHalfEven, Rat.floor_def']
    rw [hp]
    exact List.mem_singleton.mpr rfl
  exact ⟨hm, (per_source_tenths_aggregator_integer).1
    [⟨"H", 0, 0, 0, some 3⟩, ⟨"A", 0, 0, 0, some 3⟩] [⟨"H", "A", false⟩]
    ⟨"H", "A", 3, 0⟩ hm⟩

/-- C2: each consensus row rounds the arithmetic mean of exactly the
present sources (the skip-aware mean never counts a missing source as
zero, so a lone source passes through its own rounding), both sides
rounded by the same half-to-even rule; on the three-source example
(75,70), (73,68), (74,69) the consensus is (74,69). -/
theorem consensus_mean_round :
    combine_predictions [⟨"H", "A", 75, 70⟩] [⟨"H", "A", 73, 68⟩]
        [⟨"H", "A", 74, 69⟩] = [⟨"H", "A", 74, 69⟩]
    ∧ (∀ k t h : List Prediction,
        combine_predictions k t h = k.map (consensusOf t h))
    ∧ ∀ k : Prediction, combine_predictions [k] [] [] =
        [⟨k.home_team, k.away_team, (roundHalfEven k.home_score : ℚ),
          (roundHalfEven k.away_score : ℚ)⟩] := by
  refine ⟨?_, fun k t h => rfl, ?_⟩
  · simp only [combine_predictions, matchingRow, List.find?, presentScores,
      listMean, List.map, List.reduceOption, List.filterMap_cons,
      List.filterMap_nil, id, Option.map_some, List.sum_cons, List.sum_nil,
      List.length]
    norm_num [roundHalfEven, Rat.floor_def']
  · intro k
    simp [combine_predictions, matchingRow, presentScores, listMean,
      List.reduceOption]

/-- A matchup predicted by Torvik alone is dropped by the aggregator:
the combined output is built from the Kenpom rows only, so the claim
that one source suffices for a consensus row fails here. -/
theorem combine_drops_non_kenpom_matchup :
    (⟨"H", "A", 73, 68⟩ : Prediction) ∈ ([⟨"H", "A", 73, 68⟩] : List Prediction)
    ∧ combine_predictions [] [⟨"H", "A", 73, 68⟩] [] = [] :=
  ⟨List.mem_singleton.mpr rfl, rfl⟩

/-- C3 as amended: the aggregator emits exactly one consensus row per
Kenpom row, for exactly the Kenpom matchups in order; matchups missing
from the Kenpom file are excluded even when Torvik or Haslametrics
covers them. -/
theorem combine_rows_follow_kenpom (k t h : List Prediction) :
    (combine_predictions k t h).map (fun r => (r.home_team, r.away_team))
      = k.map (fun r => (r.home_team, r.away_team)) := by
  rw [combine_predictions, List.map_map]
  rfl

/-- C5: the home score is painted in the red winner color exactly when
home_score > away_score, but on equal scores the away score is painted
red: the tie is rendered with the away side styled as the winner,
contradicting the comment (red if winning) beside the code. -/
theorem tie_paints_away_as_winner :
    (∀ hs as : ℚ, (create_game_card_colors hs as).home_color = "#d32f2f" ↔ hs > as)
    ∧ create_game_card_colors 70 70 = ⟨"#222", "#d32f2f"⟩ := by
  constructor
  · intro hs as
    by_cases hgt : hs > as <;> simp [create_game_card_colors, hgt]
  · decide

/-- The canonical key a resolution step writes. -/
theorem resolve_name_fst (t : List (String × String)) (n : String)
    (u : List String) : (resolve_name t n u).1 = canonicalKey t n := by
  cases h : get_canonical_name t n <;> simp [resolve_name, canonicalKey, h]

/-- Membership in the unmapped list after one resolution step. -/
theorem resolve_name_mem (t : List (String × String)) (n : String)
    (u : List String) (m : String) :
    m ∈ (resolve_name t n u).2
      ↔ m ∈ u ∨ (get_canonical_name t n = none ∧ m = n) := by
  cases h : get_canonical_name t n with
  | some s => simp [resolve_name, h]
  | none =>
    simp only [resolve_name, h]
    by_cases hu : n ∈ u
    · rw [if_pos hu]
      constructor
      · exact fun hm => Or.inl hm
      · rintro (hm | ⟨-, rfl⟩)
        · exact hm
        · exact hu
    · rw [if_neg hu]
      simp [List.mem_append]

/-- A resolution step keeps the unmapped list duplicate-free. -/
theorem resolve_name_nodup (t : List (String × String)) (n : String)
    (u : List String) (h : u.Nodup) : (resolve_name t n u).2.Nodup := by
  cases hc : get_canonical_name t n with
  | some s => simpa [resolve_name, hc] using h
  | none =>
    simp only [resolve_name, hc]
    by_cases hu : n ∈ u
    · rwa [if_pos hu]
    · rw [if_neg hu]
      rw [List.nodup_append]
      refine ⟨h, List.nodup_singleton n, ?_⟩
      intro x hx hxn
      exact hu ((List.mem_singleton.mp hxn) ▸ hx)

/-- Rows produced by the fetch_daily_games normalizer: each name is
replaced by its canonical key, raw name preserved on a miss. -/
theorem fd_aux_fst (t : List (String × String)) :
    ∀ (df : List GameRow) (u : List String),
      (FetchDaily.normalize_aux t df u).1
        = df.map (fun r => ⟨canonicalKey t r.home_team, canonicalKey t r.away_team⟩) := by
  intro df
  induction df with
  | nil => intro u; rfl
  | cons row rest ih =>
    intro u
    simp [FetchDaily.normalize_aux, resolve_name_fst, ih]

/-- Unmapped-list membership for the fetch_daily_games normalizer. -/
theorem fd_aux_mem (t : List (String × String)) :
    ∀ (df : List GameRow) (u : List String) (m : String),
      m ∈ (FetchDaily.normalize_aux t df u).2
        ↔ m ∈ u ∨ (get_canonical_name t m = none ∧ referencedIn df m) := by
  intro df
  induction df with
  | nil =>
    intro u m
    simp [FetchDaily.normalize_aux, referencedIn]
  | cons row rest ih =>
    intro u m
    simp only [FetchDaily.normalize_aux]
    rw [ih, resolve_name_mem, resolve_name_mem]
    constructor
    · rintro (((hm | ⟨hn, rfl⟩) | ⟨hn, rfl⟩) | ⟨hn, r, hr, hside⟩)
      · exact Or.inl hm
      · exact Or.inr ⟨hn, row, List.mem_cons_self _ _, Or.inl rfl⟩
      · exact Or.inr ⟨hn, row, List.mem_cons_self _ _, Or.inr rfl⟩
      · exact Or.inr ⟨hn, r, List.mem_cons_of_mem _ hr, hside⟩
    · rintro (hm | ⟨hn, r, hr, hside⟩)
      · exact Or.inl (Or.inl (Or.inl hm))
      · rcases List.mem_cons.mp hr with rfl | hr
        · rcases hside with hside | hside
          · exact Or.inl (Or.inl (Or.inr ⟨hside ▸ hn, hside.symm⟩))
          · exact Or.inl (Or.inr ⟨hside ▸ hn, hside.symm⟩)
        · exact Or.inr ⟨hn, r, hr, hside⟩

/-- The fetch_daily_games normalizer keeps the unmapped list
duplicate-free. -/
theorem fd_aux_nodup (t : List (String × String)) :
    ∀ (df : List GameRow) (u : List String), u.Nodup →
      (FetchDaily.normalize_aux t df u).2.Nodup := by
  intro df
  induction df with
  | nil => intro u h; exact h
  | cons row rest ih =>
    intro u h
    exact ih _ (resolve_name_nodup _ _ _ (resolve_name_nodup _ _ _ h))

/-- Rows produced by the haslametric_scrape normalizer: each name is
rank-stripped and replaced by the canonical key of the stripped name,
the stripped name itself on a miss; scores are untouched. -/
theorem hs_aux_fst (t : List (String × String)) :
    ∀ (df : List Prediction) (u : List String),
      (Haslam.normalize_aux t df u).1
        = df.map (fun r =>
            { r with home_team := canonicalKey t (stripRank r.home_team),
                     away_team := canonicalKey t (stripRank r.away_team) }) := by
  intro df
  induction df with
  | nil => intro u; rfl
  | cons row rest ih =>
    intro u
    simp [Haslam.normalize_aux, resolve_name_fst, ih]

/-- Unmapped-list membership for the haslametric_scrape normalizer:
entries are the rank-stripped names that miss the table. -/
theorem hs_aux_mem (t : List (String × String)) :
    ∀ (df : List Prediction) (u : List String) (m : String),
      m ∈ (Haslam.normalize_aux t df u).2
        ↔ m ∈ u ∨ (get_canonical_name t m = none ∧ referencedCleanIn df m) := by
  intro df
  induction df with
  | nil =>
    intro u m
    simp [Haslam.normalize_aux, referencedCleanIn]
  | cons row rest ih =>
    intro u m
    simp only [Haslam.normalize_aux]
    rw [ih, resolve_name_mem, resolve_name_mem]
    constructor
    · rintro (((hm | ⟨hn, rfl⟩) | ⟨hn, rfl⟩) | ⟨hn, r, hr, hside⟩)
      · exact Or.inl hm
      · exact Or.inr ⟨hn, row, List.mem_cons_self _ _, Or.inr rfl⟩
      · exact Or.inr ⟨hn, row, List.mem_cons_self _ _, Or.inl rfl⟩
      · exact Or.inr ⟨hn, r, List.mem_cons_of_mem _ hr, hside⟩
    · rintro (hm | ⟨hn, r, hr, hside⟩)
      · exact Or.inl (Or.inl (Or.inl hm))
      · rcases List.mem_cons.mp hr with rfl | hr
        · rcases hside with hside | hside
          · exact Or.inl (Or.inr ⟨hside ▸ hn, hside.symm⟩)
          · exact Or.inl (Or.inl (Or.inr ⟨hside ▸ hn, hside.symm⟩))
        · exact Or.inr ⟨hn, r, hr, hside⟩

/-- The haslametric_scrape normalizer keeps the unmapped list
duplicate-free. -/
theorem hs_aux_nodup (t : List (String × String)) :
    ∀ (df : List Prediction) (u : List String), u.Nodup →
      (Haslam.normalize_aux t df u).2.Nodup := by
  intro df
  induction df with
  | nil => intro u h; exact h
  | cons row rest ih =>
    intro u h
    exact ih _ (resolve_name_nodup _ _ _ (resolve_name_nodup _ _ _ h))

/-- Dropping a satisfying prefix skips a fully-satisfying block. -/
theorem dropWhile_append_of_all (p : Char → Bool) (xs ys : List Char)
    (h : ∀ c ∈ xs, p c = true) :
    List.dropWhile p (xs ++ ys) = List.dropWhile p ys := by
  induction xs with
  | nil => rfl
  | cons x xs ih =>
    have hx : p x = true := h x (List.mem_cons_self _ _)
    rw [List.cons_append]
    simp only [List.dropWhile_cons, hx, if_true]
    exact ih (fun c hc => h c (List.mem_cons_of_mem _ hc))

/-- Dropping from the right removes a fully-satisfying suffix. -/
theorem dropRightWhileList_append_all (p : Char → Bool) (l1 l2 : List Char)
    (h : ∀ c ∈ l2, p c = true) :
    dropRightWhileList p (l1 ++ l2) = dropRightWhileList p l1 := by
  unfold dropRightWhileList
  rw [List.reverse_append,
    dropWhile_append_of_all p l2.reverse l1.reverse
      (fun c hc => h c (List.mem_reverse.mp hc))]

/-- A list whose last element fails the predicate loses nothing on the
right. -/
theorem dropRightWhileList_eq_self (p : Char → Bool) (l : List Char)
    (h : ∀ c, l.getLast? = some c → p c = false) :
    dropRightWhileList p l = l := by
  unfold dropRightWhileList
  cases hr : l.reverse with
  | nil =>
    have hl : l = [] := by simpa using congrArg List.reverse hr
    simp [hl]
  | cons x xs =>
    have hlast : l.getLast? = some x := by
      have hhd := List.head?_reverse l
      rw [hr] at hhd
      exact hhd.symm
    have hx : p x = false := h x hlast
    simp only [List.dropWhile_cons, hx, if_false, Bool.false_eq_true]
    rw [← hr, List.reverse_reverse]

/-- The last element of a list is a member. -/
theorem mem_of_getLast_eq {l : List Char} {c : Char}
    (h : l.getLast? = some c) : c ∈ l := by
  obtain ⟨hne, hc⟩ := List.mem_getLast?_eq_getLast (Option.mem_def.mpr h)
  exact hc ▸ List.getLast_mem hne

/-- str.strip() of a whitespace-free list is the list itself. -/
theorem pyStrip_eq_self (l : List Char)
    (h : ∀ c ∈ l, c.isWhitespace = false) : pyStrip l = l := by
  unfold pyStrip
  have h1 : l.dropWhile Char.isWhitespace = l := by
    cases l with
    | nil => rfl
    | cons x xs =>
      simp only [List.dropWhile_cons, h x (List.mem_cons_self _ _), if_false,
        Bool.false_eq_true]
  rw [h1]
  exact dropRightWhileList_eq_self _ _ (fun c hc => h c (mem_of_getLast_eq hc))

/-- The regex step of the Haslametrics normalizer: a trailing block of
whitespace followed by digits is removed, leaving the stripped base
name. -/
theorem stripRankChars_strips (cs : List Char) (c : Char) (ws ds : List Char)
    (hcd : c.isDigit = false) (hcw : c.isWhitespace = false)
    (hws : ∀ x ∈ ws, x.isWhitespace = true ∧ x.isDigit = false)
    (hds : ∀ x ∈ ds, x.isDigit = true) (hne : ds ≠ []) :
    stripRankChars (cs ++ [c] ++ ws ++ ds) = pyStrip (cs ++ [c]) := by
  obtain ⟨ds', d, rfl⟩ := (List.eq_nil_or_concat' ds).resolve_left hne
  have hwhole : (cs ++ [c] ++ ws ++ (ds' ++ [d])).getLast? = some d := by
    rw [List.getLast?_append_of_ne_nil _ (by simp), List.getLast?_concat]
  have hdd : d.isDigit = true :=
    hds d (List.mem_append_right _ (List.mem_singleton.mpr rfl))
  have h1 : dropRightWhileList Char.isDigit (cs ++ [c] ++ ws ++ (ds' ++ [d]))
      = cs ++ [c] ++ ws := by
    rw [dropRightWhileList_append_all Char.isDigit _ _ hds]
    apply dropRightWhileList_eq_self
    intro x hx
    by_cases hwsnil : ws = []
    · subst hwsnil
      rw [List.append_nil, List.getLast?_concat] at hx
      cases hx
      exact hcd
    · rw [List.getLast?_append_of_ne_nil _ hwsnil] at hx
      exact (hws x (mem_of_getLast_eq hx)).2
  have h2 : dropRightWhileList Char.isWhitespace (cs ++ [c] ++ ws)
      = cs ++ [c] := by
    rw [dropRightWhileList_append_all Char.isWhitespace _ _
      (fun x hx => (hws x hx).1)]
    apply dropRightWhileList_eq_self
    intro x hx
    rw [List.getLast?_concat] at hx
    cases hx
    exact hcw
  simp only [stripRankChars, hwhole, hdd, if_true]
  rw [h1, h2]

/-- C9: the Haslametrics normalizer writes, for every scraped name, the
canonical key of its rank-stripped form (so the lookup runs on the
stripped name and any miss falls back to the stripped name), and the
stripping removes exactly a trailing whitespace-then-digits token. -/
theorem rank_stripped_before_lookup :
    (∀ (table : List (String × String)) (df : List Prediction),
      (Haslam.normalize_team_names table df).1
        = df.map (fun r =>
            { r with home_team := canonicalKey table (stripRank r.home_team),
                     away_team := canonicalKey table (stripRank r.away_team) }))
    ∧ ∀ s d : String,
        (∀ c ∈ s.data, c.isWhitespace = false) →
        (∀ c, s.data.getLast? = some c → c.isDigit = false) →
        s.data ≠ [] →
        (∀ c ∈ d.data, c.isDigit = true) → d.data ≠ [] →
        stripRank (s ++ " " ++ d) = s := by
  constructor
  · intro table df
    simpa [Haslam.normalize_team_names] using hs_aux_fst table df []
  · intro s d hsw hsd hsne hdd hdne
    rcases List.eq_nil_or_concat' s.data with hnil | ⟨init, c, hsplit⟩
    · exact absurd hnil hsne
    · have hcd : c.isDigit = false := hsd c (by rw [hsplit, List.getLast?_concat])
      have hcw : c.isWhitespace = false :=
        hsw c (by rw [hsplit]; exact List.mem_append_right _ (List.mem_singleton.mpr rfl))
      have hdata : (s ++ " " ++ d).data = init ++ [c] ++ [' '] ++ d.data := by
        rw [String.data_append, String.data_append, hsplit]
      unfold stripRank
      rw [hdata,
        stripRankChars_strips init c [' '] d.data hcd hcw
          (by intro x hx; rw [List.mem_singleton.mp hx]; exact ⟨rfl, rfl⟩)
          hdd hdne,
        pyStrip_eq_self (init ++ [c]) (by rw [← hsplit]; exact hsw),
        ← hsplit]

/-- Closed instance of the C9 theorem: the rank token of a scraped name
is stripped before lookup. -/
theorem rank_stripped_before_lookup_witness :
    (∀ c ∈ ("Duke" : String).data, c.isWhitespace = false)
    ∧ stripRank ("Duke" ++ " " ++ "5") = "Duke" :=
  ⟨by decide, (rank_stripped_before_lookup).2 "Duke" "5" (by decide) (by decide)
    (by decide) (by decide) (by decide)⟩

/-- The claim that an unmapped raw name passes through unchanged and is
reported once fails on the Haslametrics normalizer: the scraped name
with a rank token is written back stripped, and the report carries the
stripped name, not the raw one. -/
theorem haslam_fallback_not_raw_name_cex :
    (Haslam.normalize_team_names [] [⟨"X", "Duke 5", 70, 60⟩]).1
        = [⟨"X", "Duke", 70, 60⟩]
    ∧ (Haslam.normalize_team_names [] [⟨"X", "Duke 5", 70, 60⟩]).2.count "Duke 5" = 0
    ∧ ("Duke" : String) ≠ "Duke 5" := by
  decide

/-- C8 as amended: an unmapped name is kept as its own canonical key —
verbatim in the ESPN normalizer, in rank-stripped form in the
Haslametrics normalizer — the record is never dropped, and each
unmapped (stripped) name appears exactly once in that run's
unmapped report no matter how many rows reference it. -/
theorem unmapped_fallback_and_single_report :
    (∀ (table : List (String × String)) (df : List GameRow),
      (FetchDaily.normalize_team_names table df).1
        = df.map (fun r =>
            ⟨canonicalKey table r.home_team, canonicalKey table r.away_team⟩))
    ∧ (∀ (table : List (String × String)) (df : List Prediction),
      (Haslam.normalize_team_names table df).1
        = df.map (fun r =>
            { r with home_team := canonicalKey table (stripRank r.home_team),
                     away_team := canonicalKey table (stripRank r.away_team) }))
    ∧ (∀ (table : List (String × String)) (df : List GameRow) (name : String),
        get_canonical_name table name = none → referencedIn df name →
        (FetchDaily.normalize_team_names table df).2.count name = 1)
    ∧ ∀ (table : List (String × String)) (df : List Prediction) (name : String),
        get_canonical_name table name = none → referencedCleanIn df name →
        (Haslam.normalize_team_names table df).2.count name = 1 := by
  refine ⟨?_, ?_, ?_, ?_⟩
  · intro table df
    simpa [FetchDaily.normalize_team_names] using fd_aux_fst table df []
  · intro table df
    simpa [Haslam.normalize_team_names] using hs_aux_fst table df []
  · intro table df name hn href
    have hmem : name ∈ (FetchDaily.normalize_team_names table df).2 :=
      (fd_aux_mem table df [] name).mpr (Or.inr ⟨hn, href⟩)
    exact List.count_eq_one_of_mem (fd_aux_nodup table df [] List.nodup_nil) hmem
  · intro table df name hn href
    have hmem : name ∈ (Haslam.normalize_team_names table df).2 :=
      (hs_aux_mem table df [] name).mpr (Or.inr ⟨hn, href⟩)
    exact List.count_eq_one_of_mem (hs_aux_nodup table df [] List.nodup_nil) hmem

/-- Closed instance of the C8 amended theorem: a name referenced by
both columns of a row, absent from the table, is reported exactly
once by each normalizer. -/
theorem unmapped_fallback_and_single_report_witness :
    get_canonical_name [] "Q" = none
    ∧ (FetchDaily.normalize_team_names [] [⟨"Q", "Q"⟩]).2.count "Q" = 1
    ∧ (Haslam.normalize_team_names [] [⟨"R", "Q", 1, 2⟩]).2.count "Q" = 1 :=
  ⟨rfl,
    (unmapped_fallback_and_single_report).2.2.1 [] [⟨"Q", "Q"⟩] "Q" rfl
      ⟨⟨"Q", "Q"⟩, List.mem_singleton.mpr rfl, Or.inl rfl⟩,
    (unmapped_fallback_and_single_report).2.2.2 [] [⟨"R", "Q", 1, 2⟩] "Q" rfl
      ⟨⟨"R", "Q", 1, 2⟩, List.mem_singleton.mpr rfl, Or.inr (by decide)⟩⟩

end CBB
